import Mathlib

/-!
Verification of the curve-modeling engine of the motor-check application
(`src/App.tsx`): `buildSeries`, `interpolateCurrentForLift`,
`buildFlightCurve` and `splitCurve`.

Modelling conventions.  JavaScript numbers are idealized as exact
rationals (`ℚ`); the transcendental library functions `Math.log`,
`Math.pow` and `Math.sqrt` are abstracted as an explicit `MathOps`
record of functions `ℚ → ℚ`, so every definition stays computable and
theorems quantify over the mathematical facts about them that they
need.  A JavaScript value that may be `null`/`undefined`/non-finite is
modelled as an `Option ℚ` (`none` = absent or non-finite): the
`Number.isFinite` filter of `buildSeries` keeps exactly the `some`
fields.  The JavaScript coalescing operators are modelled explicitly:
`x ?? d` is `Option.getD` and `x || d` (on numbers) is `orQ` / `optOr`
below, which substitute the default exactly when the value is zero or
absent.  JavaScript array sort with comparator `(a,b) => a.k - b.k` is
a stable ascending sort by `k`; `List.insertionSort` with the `≤`
relation on the key is stable and therefore denotes the same function.
-/

namespace MotorCheck

/-- Abstraction of the JavaScript `Math` operations used by the engine:
`log`, a two-argument `pow`, and `sqrt`, each idealized as `ℚ → ℚ`. -/
structure MathOps where
  log : ℚ → ℚ
  pow : ℚ → ℚ → ℚ
  sqrt : ℚ → ℚ

/-- A raw spec-sheet sample row.  `none` in `current`/`thrust_kg` models a
missing or non-finite number (`Number.isFinite` fails); `throttle` is
optional in the data model. -/
structure Row where
  current : Option ℚ
  thrust_kg : Option ℚ
  throttle : Option ℚ

/-- A canonical series point `{ x: current, y: thrust, throttle }` as
produced by `buildSeries`; `x` and `y` are finite by construction. -/
structure Pt where
  x : ℚ
  y : ℚ
  throttle : Option ℚ
deriving DecidableEq

instance : Inhabited Pt := ⟨⟨0, 0, none⟩⟩

/-- JavaScript `v || d` on a number `v`: the default replaces a falsy
(here: zero) value. -/
def orQ (v d : ℚ) : ℚ := if v = 0 then d else v

/-- JavaScript `o || d` on an optional number: the default replaces an
absent or zero value. -/
def optOr (o : Option ℚ) (d : ℚ) : ℚ :=
  match o with
  | none => d
  | some v => if v = 0 then d else v

/-- Stable ascending sort by the `x` field: `[...arr].sort((a,b) => a.x - b.x)`. -/
def sortByX (l : List Pt) : List Pt :=
  l.insertionSort (fun a b => a.x ≤ b.x)

/-- Stable ascending sort by the `y` field: `[...arr].sort((a,b) => a.y - b.y)`. -/
def sortByY (l : List Pt) : List Pt :=
  l.insertionSort (fun a b => a.y ≤ b.y)

/-- `buildSeries(points)`: drop rows with a non-finite `current` or
`thrust_kg`, map to `{x, y, throttle}`, sort ascending by `x`.  The
argument is `Option`al to model a `null`/`undefined` input array. -/
def buildSeries : Option (List Row) → List Pt
  | none => []
  | some points =>
    sortByX (points.filterMap fun p =>
      match p.current, p.thrust_kg with
      | some c, some t => some { x := c, y := t, throttle := p.throttle }
      | _, _ => none)

/-- The payload of a successful interpolation:
`{ ok:true, currentA, throttle, noteLow }`. -/
structure InterpOk where
  currentA : ℚ
  throttle : ℚ
  noteLow : Bool
deriving DecidableEq

/-- Result of `interpolateCurrentForLift`: `ok` with a payload, or an
error with the reason string (`no-data`, `exceeds-max`,
`segment-not-found`). -/
inductive InterpResult where
  | ok : InterpOk → InterpResult
  | err : String → InterpResult
deriving DecidableEq

/-- The fractional position `t = (lift − a.y) / ((b.y − a.y) || 1)` of the
in-range path (the `|| 1` guards division by zero). -/
def segFrac (a b : Pt) (lift : ℚ) : ℚ :=
  (lift - a.y) / (if b.y - a.y = 0 then 1 else b.y - a.y)

/-- The `ok` payload produced for a bracketing pair `(a, b)`: `current`
and `throttle` linearly interpolated at `segFrac`, not below range. -/
def segOk (a b : Pt) (lift : ℚ) : InterpOk :=
  { currentA := a.x + segFrac a b lift * (b.x - a.x)
    throttle := (a.throttle.getD 0) +
      segFrac a b lift * ((b.throttle.getD 0) - (a.throttle.getD 0))
    noteLow := false }

/-- The in-range search loop of `interpolateCurrentForLift`: scan
consecutive pairs `(a, b)` of the `y`-sorted list for
`a.y ≤ lift ≤ b.y`, and linearly interpolate there; if the scan
falls off the end, return the defensive `segment-not-found` error. -/
def findSeg (lift : ℚ) : List Pt → InterpResult
  | a :: b :: rest =>
    if a.y ≤ lift ∧ lift ≤ b.y then .ok (segOk a b lift)
    else findSeg lift (b :: rest)
  | _ => .err "segment-not-found"

/-- The payload of the power-law extrapolation branch: fit
`I = aCoef · T ^ bExp` through the two lowest points `(a, b)`, fit the
throttle analogously when both anchors have positive throttle and by
`throttle ∝ sqrt(thrust)` otherwise, clamp both to `≥ 0`, flag
below-range. -/
def powerLawOk (M : MathOps) (a b : Pt) (lift : ℚ) : InterpOk :=
  let bExp := M.log (b.x / a.x) / M.log (b.y / a.y)
  let aCoef := a.x / M.pow a.y bExp
  let currentPL := aCoef * M.pow (max lift (1/1000000000)) bExp
  let thr :=
    if 0 < a.throttle.getD 0 ∧ 0 < b.throttle.getD 0 then
      let dExp := M.log (optOr b.throttle 1 / optOr a.throttle 1) / M.log (b.y / a.y)
      let cCoef := optOr a.throttle 1 / M.pow a.y dExp
      cCoef * M.pow (max lift (1/1000000000)) dExp
    else
      let k := (a.throttle.getD 0) / M.sqrt (orQ a.y (1/1000000000))
      k * M.sqrt (max lift 0)
  { currentA := max 0 currentPL, throttle := max 0 thr, noteLow := true }

/-- The payload of the linear extrapolation fallback: extrapolate with
the thrust-current and thrust-throttle slopes of the two lowest points
(denominator guarded by `|| 1e-9`), clamp to `≥ 0`, flag below-range. -/
def linearOk (a b : Pt) (lift : ℚ) : InterpOk :=
  let dy := orQ (b.y - a.y) (1/1000000000)
  let slopeIx := (b.x - a.x) / dy
  let slopeTh := ((b.throttle.getD 0) - (a.throttle.getD 0)) / dy
  { currentA := max 0 (a.x + (lift - a.y) * slopeIx)
    throttle := max 0 ((a.throttle.getD 0) + (lift - a.y) * slopeTh)
    noteLow := true }

/-- The payload of the single-point fallback: scale current and
throttle towards the origin by `lift / max(min.y, 1e-9)` (the scale
itself clamped to `≥ 0`), flag below-range. -/
def singleOk (p : Pt) (lift : ℚ) : InterpOk :=
  let scale := max 0 (lift / max p.y (1/1000000000))
  { currentA := p.x * scale
    throttle := (p.throttle.getD 0) * scale
    noteLow := true }

/-- `interpolateCurrentForLift(series, liftKgPerMotor)`: per-motor
current and throttle needed for a target per-motor lift.  Sorts the
series ascending by thrust; below the measured range it extrapolates
(power-law fit on the two lowest points when all four coordinates are
positive, else linear, else single-point scaling towards the origin);
above the measured range it fails with `exceeds-max`; inside it, it
linearly interpolates on the bracketing pair. -/
def interpolateCurrentForLift (M : MathOps) (series : List Pt)
    (liftKgPerMotor : ℚ) : InterpResult :=
  if series.isEmpty then .err "no-data" else
  let pts := sortByY series
  let minPt := pts.headI
  let maxPt := pts.getLastI
  if liftKgPerMotor < minPt.y then
    if 2 ≤ pts.length then
      let a := pts.headI
      let b := pts.tail.headI
      if 0 < a.y ∧ 0 < b.y ∧ 0 < a.x ∧ 0 < b.x then
        .ok (powerLawOk M a b liftKgPerMotor)
      else
        .ok (linearOk a b liftKgPerMotor)
    else
      .ok (singleOk minPt liftKgPerMotor)
  else if maxPt.y < liftKgPerMotor then .err "exceeds-max"
  else findSeg liftKgPerMotor pts

/-- The exact guard conjunction under which `interpolateCurrentForLift`
takes the power-law extrapolation branch: non-empty series, target
strictly below the sorted minimum thrust, at least two points, and the
two lowest points having strictly positive current and thrust. -/
def powerLawBranch (series : List Pt) (lift : ℚ) : Bool :=
  !series.isEmpty &&
    decide (lift < (sortByY series).headI.y) &&
    decide (2 ≤ (sortByY series).length) &&
    (decide (0 < (sortByY series).headI.y) &&
      decide (0 < (sortByY series).tail.headI.y) &&
      decide (0 < (sortByY series).headI.x) &&
      decide (0 < (sortByY series).tail.headI.x))

/-- `Math.min(...ys)` over a possibly-empty list (the caller guards the
empty case with a default). -/
def listMin : List ℚ → ℚ
  | [] => 0
  | x :: xs => xs.foldl min x

/-- `Math.max(...ys)` over a possibly-empty list (the caller guards the
empty case with a default). -/
def listMax : List ℚ → ℚ
  | [] => 0
  | x :: xs => xs.foldl max x

/-- A flight-curve point `{ w: total weight, t: minutes, est }`. -/
structure FPoint where
  w : ℚ
  t : ℚ
  est : Bool
deriving DecidableEq

instance : Inhabited FPoint := ⟨⟨0, 0, false⟩⟩

/-- Stable ascending sort of flight-curve points by weight:
`out.sort((a,b) => a.w - b.w)`. -/
def sortByW (l : List FPoint) : List FPoint :=
  l.insertionSort (fun a b => a.w ≤ b.w)

/-- The minutes computation shared by both emit sites of
`buildFlightCurve`: `totalCurrent > 0 ? min(usableAh/totalCurrent*60, 120) : 0`. -/
def flightMinutes (usableAh totalCurrent : ℚ) : ℚ :=
  if 0 < totalCurrent then min (usableAh / totalCurrent * 60) 120 else 0

/-- One emitted flight-curve point: floor the per-motor current at
`0.1` A, scale by the motor count, convert to minutes, and tag as
estimated when the sampled lift is strictly below the measured minimum
(tolerance `1e-9`). -/
def flightPoint (minPerMotorLift usableAh motorCount perMotor : ℚ)
    (interp : InterpOk) : FPoint :=
  let perMotorA := max (orQ interp.currentA 0) (1/10)
  let totalCurrent := perMotorA * motorCount
  { w := perMotor * motorCount
    t := flightMinutes usableAh totalCurrent
    est := decide (perMotor < minPerMotorLift - 1/1000000000) }

/-- `Math.min(...ys)` of the series' thrusts (`0` when empty), i.e. the
`minPerMotorLift` of `buildFlightCurve`. -/
def minPerMotorLiftOf (series : List Pt) : ℚ :=
  if (series.map (·.y)).isEmpty then 0 else listMin (series.map (·.y))

/-- `Math.max(...ys)` of the series' thrusts (`0` when empty), i.e. the
`maxPerMotorLift` of `buildFlightCurve`. -/
def maxPerMotorLiftOf (series : List Pt) : ℚ :=
  if (series.map (·.y)).isEmpty then 0 else listMax (series.map (·.y))

/-- The sweep start `max(0, 0.7 · minPerMotorLift)`: extends 30% below
the lowest measured point. -/
def startPerOf (series : List Pt) : ℚ :=
  max 0 (minPerMotorLiftOf series * (7/10))

/-- The sweep end `max(start + 0.01, 0.99 · maxPerMotorLift)`. -/
def endPerOf (series : List Pt) : ℚ :=
  max (startPerOf series + 1/100) (maxPerMotorLiftOf series * (99/100))

/-- The `i`-th of `points` evenly spaced per-motor lift samples:
`start + (end − start) · i/(points − 1)`. -/
def sampleLift (series : List Pt) (points i : ℕ) : ℚ :=
  startPerOf series + (endPerOf series - startPerOf series) *
    ((i : ℚ) / ((points : ℚ) - 1))

/-- The sweep loop of `buildFlightCurve`: one emitted point per sample
whose interpolation succeeds; failed samples are skipped. -/
def sweepOut (M : MathOps) (series : List Pt)
    (motorCount usableAh : ℚ) (points : ℕ) : List FPoint :=
  (List.range points).filterMap fun i =>
    match interpolateCurrentForLift M series (sampleLift series points i) with
    | .ok interp => some (flightPoint (minPerMotorLiftOf series) usableAh motorCount
        (sampleLift series points i) interp)
    | .err _ => none

/-- The boundary-append step of `buildFlightCurve`: when `minY > 0` and
interpolation at exactly `minY` succeeds, append the boundary point
(tagged not-estimated) unless a point with the same weight (within
`1e-6`) already exists. -/
def withBoundary (M : MathOps) (series : List Pt)
    (motorCount usableAh : ℚ) (out : List FPoint) : List FPoint :=
  if 0 < minPerMotorLiftOf series then
    match interpolateCurrentForLift M series (minPerMotorLiftOf series) with
    | .ok b =>
      let boundary : FPoint :=
        { flightPoint (minPerMotorLiftOf series) usableAh motorCount
            (minPerMotorLiftOf series) b with est := false }
      if out.any fun p => |p.w - boundary.w| < 1/1000000 then out
      else out ++ [boundary]
    | .err _ => out
  else out

/-- `buildFlightCurve(series, motorCount, capacityAh, usablePct, points)`:
sweep per-motor lift from `0.7·minY` to `max(start+0.01, 0.99·maxY)`,
interpolate each sample, convert current to minutes of endurance,
tag samples strictly below `minY` (tolerance `1e-9`) as estimated,
append an exact boundary point at `minY` when missing, and sort by
weight.  `usableAh = capacityAh · usablePct/100`. -/
def buildFlightCurve (M : MathOps) (series : List Pt)
    (motorCount capacityAh usablePct : ℚ) (points : ℕ := 60) : List FPoint :=
  if series.isEmpty then [] else
  sortByW (withBoundary M series motorCount (capacityAh * (usablePct / 100))
    (sweepOut M series motorCount (capacityAh * (usablePct / 100)) points))

/-- The two halves of a partitioned flight curve:
`known` (measured) and `est` (estimated). -/
structure SplitCurveResult where
  known : List FPoint
  est : List FPoint
deriving DecidableEq

/-- `splitCurve(curve)`: partition by the `est` flag, and when both
halves are non-empty and the last estimated point does not already
coincide with the first known point (weight tolerance `1e-6`), append
a copy of that boundary point, re-tagged estimated, to the estimated
half so the two rendered segments touch. -/
def splitCurve (curve : List FPoint) : SplitCurveResult :=
  if curve.isEmpty then { known := [], est := [] } else
  let known := curve.filter fun d => !d.est
  let est := curve.filter fun d => d.est
  if known.length ≠ 0 ∧ est.length ≠ 0 then
    let boundary := known.headI
    let lastEst := est.getLastI
    if 1/1000000 < |lastEst.w - boundary.w| then
      { known := known, est := est ++ [{ boundary with est := true }] }
    else { known := known, est := est }
  else { known := known, est := est }

/-- A concrete instantiation of `MathOps` used only by closed witness
and counterexample statements (the paths they exercise either ignore
the operations or constrain them by explicit hypotheses that this
instance satisfies). -/
def opsId : MathOps :=
  { log := fun x => x, pow := fun x _ => x, sqrt := fun x => x }

/-! ### Basic facts about the sorts used by the engine -/

instance : IsTotal Pt fun a b => a.y ≤ b.y := ⟨fun a b => le_total a.y b.y⟩

instance : IsTrans Pt fun a b => a.y ≤ b.y := ⟨fun _ _ _ h h2 => le_trans h h2⟩

instance : IsTotal Pt fun a b => a.x ≤ b.x := ⟨fun a b => le_total a.x b.x⟩

instance : IsTrans Pt fun a b => a.x ≤ b.x := ⟨fun _ _ _ h h2 => le_trans h h2⟩

instance : IsTotal FPoint fun a b => a.w ≤ b.w := ⟨fun a b => le_total a.w b.w⟩

instance : IsTrans FPoint fun a b => a.w ≤ b.w := ⟨fun _ _ _ h h2 => le_trans h h2⟩

lemma sortByY_perm (l : List Pt) : List.Perm (sortByY l) l :=
  List.perm_insertionSort _ l

lemma sortByY_sorted (l : List Pt) : (sortByY l).Sorted fun a b => a.y ≤ b.y :=
  List.sorted_insertionSort _ l

lemma sortByX_perm (l : List Pt) : List.Perm (sortByX l) l :=
  List.perm_insertionSort _ l

lemma sortByX_sorted (l : List Pt) : (sortByX l).Sorted fun a b => a.x ≤ b.x :=
  List.sorted_insertionSort _ l

lemma sortByW_perm (l : List FPoint) : List.Perm (sortByW l) l :=
  List.perm_insertionSort _ l

lemma sortByY_ne_nil {l : List Pt} (h : l ≠ []) : sortByY l ≠ [] := by
  intro hc
  exact h (List.Perm.eq_nil ((sortByY_perm l).symm.trans (hc ▸ List.Perm.refl _)))

lemma headI_mem {α : Type} [Inhabited α] {l : List α} (h : l ≠ []) : l.headI ∈ l := by
  cases l with
  | nil => exact absurd rfl h
  | cons a t => simp

lemma getLastI_cons_cons {α : Type} [Inhabited α] (a b : α) (l : List α) :
    (a :: b :: l).getLastI = (b :: l).getLastI := by
  rw [List.getLastI_eq_getLast?, List.getLastI_eq_getLast?, List.getLast?_cons_cons]

lemma getLastI_mem {α : Type} [Inhabited α] {l : List α} (h : l ≠ []) : l.getLastI ∈ l := by
  induction l with
  | nil => exact absurd rfl h
  | cons a t ih =>
    cases t with
    | nil => simp [List.getLastI]
    | cons b m =>
      rw [getLastI_cons_cons]
      exact List.mem_cons_of_mem a (ih (by simp))

/-- In a `y`-sorted list, the head's `y` is a lower bound. -/
lemma sorted_headI_le {l : List Pt} (hs : l.Sorted fun a b => a.y ≤ b.y)
    {p : Pt} (hp : p ∈ l) : l.headI.y ≤ p.y := by
  cases l with
  | nil => cases hp
  | cons a t =>
    rcases List.mem_cons.mp hp with h | h
    · subst h; simp
    · simpa using List.rel_of_pairwise_cons hs h

/-- In a `y`-sorted list, the last element's `y` is an upper bound. -/
lemma sorted_le_getLastI : ∀ {l : List Pt},
    (l.Sorted fun a b => a.y ≤ b.y) → ∀ p ∈ l, p.y ≤ l.getLastI.y
  | [], _, p, hp => by cases hp
  | [a], _, p, hp => by
    rcases List.mem_cons.mp hp with h | h
    · subst h; simp [List.getLastI]
    · cases h
  | a :: b :: m, hs, p, hp => by
    rw [getLastI_cons_cons]
    rcases List.mem_cons.mp hp with h | h
    · subst h
      calc p.y ≤ b.y := List.rel_of_pairwise_cons hs (by simp)
        _ ≤ (b :: m).getLastI.y := sorted_le_getLastI hs.of_cons b (by simp)
    · exact sorted_le_getLastI hs.of_cons p h

/-! ### Characterization of the in-range search `findSeg` -/

/-- If the in-range search succeeds, it found a consecutive bracketing
pair `(a, b)` and returned exactly the linear interpolation between
them (`belowMeasuredRange = false`, with the divide-by-zero guard). -/
lemma findSeg_ok_inv : ∀ {l : List Pt} {t : ℚ} {r : InterpOk},
    findSeg t l = .ok r →
    ∃ l1 a b l2, l = l1 ++ a :: b :: l2 ∧ a.y ≤ t ∧ t ≤ b.y ∧ r = segOk a b t
  | [], t, r, h => by simp [findSeg] at h
  | [a], t, r, h => by simp [findSeg] at h
  | a :: b :: rest, t, r, h => by
    rw [findSeg] at h
    by_cases hc : a.y ≤ t ∧ t ≤ b.y
    · rw [if_pos hc] at h
      refine ⟨[], a, b, rest, by simp, hc.1, hc.2, ?_⟩
      cases h
      rfl
    · rw [if_neg hc] at h
      obtain ⟨l1, a', b', l2, hl, h1, h2, h3⟩ := findSeg_ok_inv h
      exact ⟨a :: l1, a', b', l2, by simp [hl], h1, h2, h3⟩

/-- The in-range search only ever fails with the defensive
`segment-not-found` reason. -/
lemma findSeg_err_inv : ∀ {l : List Pt} {t : ℚ} {s : String},
    findSeg t l = .err s → s = "segment-not-found"
  | [], _, _, h => by
    simp only [findSeg, InterpResult.err.injEq] at h
    exact h.symm
  | [a], _, _, h => by
    simp only [findSeg, InterpResult.err.injEq] at h
    exact h.symm
  | a :: b :: rest, t, s, h => by
    rw [findSeg] at h
    by_cases hc : a.y ≤ t ∧ t ≤ b.y
    · rw [if_pos hc] at h; cases h
    · rw [if_neg hc] at h
      exact findSeg_err_inv h

/-- On a sorted list with at least two elements, the in-range search
succeeds whenever the target is between the head's and the last
element's `y`. -/
lemma findSeg_ok_of_bracket : ∀ {l : List Pt} {t : ℚ},
    (l.Sorted fun a b => a.y ≤ b.y) → 2 ≤ l.length →
    l.headI.y ≤ t → t ≤ l.getLastI.y → ∃ r, findSeg t l = .ok r
  | [], _, _, h2, _, _ => by simp at h2
  | [a], _, _, h2, _, _ => by simp at h2
  | a :: b :: rest, t, hs, h2, hlo, hhi => by
    by_cases hb : t ≤ b.y
    · exact ⟨segOk a b t, by rw [findSeg, if_pos ⟨by simpa using hlo, hb⟩]⟩
    · push_neg at hb
      cases rest with
      | nil =>
        exact absurd hhi (by simpa [List.getLastI] using hb)
      | cons c m =>
        obtain ⟨r, hr⟩ := findSeg_ok_of_bracket hs.of_cons (by simp)
          (by simpa using le_of_lt hb)
          (by rw [getLastI_cons_cons] at hhi; exact hhi)
        refine ⟨r, ?_⟩
        rw [findSeg, if_neg fun hcon => absurd hcon.2 (not_le.mpr hb)]
        exact hr

/-! ### Region characterization of the interpolator -/

/-- `interpolateCurrentForLift` unfolded into its five outcome regions. -/
lemma interpolate_eq (M : MathOps) (series : List Pt) (t : ℚ) :
    interpolateCurrentForLift M series t =
      if series = [] then .err "no-data"
      else if t < (sortByY series).headI.y then
        if 2 ≤ (sortByY series).length then
          if 0 < (sortByY series).headI.y ∧ 0 < (sortByY series).tail.headI.y ∧
              0 < (sortByY series).headI.x ∧ 0 < (sortByY series).tail.headI.x then
            .ok (powerLawOk M (sortByY series).headI (sortByY series).tail.headI t)
          else .ok (linearOk (sortByY series).headI (sortByY series).tail.headI t)
        else .ok (singleOk (sortByY series).headI t)
      else if (sortByY series).getLastI.y < t then .err "exceeds-max"
      else findSeg t (sortByY series) := by
  unfold interpolateCurrentForLift
  by_cases h : series = [] <;> simp [h, List.isEmpty_iff]

/-- The head of the `y`-sorted series has minimal `y` among series members. -/
lemma sortByY_headI_le {series : List Pt} {p : Pt} (hp : p ∈ series) :
    (sortByY series).headI.y ≤ p.y :=
  sorted_headI_le (sortByY_sorted series) ((sortByY_perm series).mem_iff.mpr hp)

/-- Every member of the series has `y` at most the last of the
`y`-sorted series. -/
lemma sortByY_le_getLastI {series : List Pt} {p : Pt} (hp : p ∈ series) :
    p.y ≤ (sortByY series).getLastI.y :=
  sorted_le_getLastI (sortByY_sorted series) p ((sortByY_perm series).mem_iff.mpr hp)

/-- In range (and below no one's radar): the interpolator reduces to
the in-range search on the sorted series. -/
lemma interpolate_in_range {M : MathOps} {series : List Pt} {t : ℚ}
    (hne : series ≠ []) (hlo : (sortByY series).headI.y ≤ t)
    (hhi : t ≤ (sortByY series).getLastI.y) :
    interpolateCurrentForLift M series t = findSeg t (sortByY series) := by
  rw [interpolate_eq, if_neg hne, if_neg (not_lt.mpr hlo), if_neg (not_lt.mpr hhi)]

/-- Above the measured range the interpolator fails with `exceeds-max`. -/
lemma interpolate_exceeds {M : MathOps} {series : List Pt} {t : ℚ}
    (hne : series ≠ []) (hhi : (sortByY series).getLastI.y < t) :
    interpolateCurrentForLift M series t = .err "exceeds-max" := by
  have hh : (sortByY series).headI.y ≤ (sortByY series).getLastI.y :=
    sorted_le_getLastI (sortByY_sorted series) _ (headI_mem (sortByY_ne_nil hne))
  rw [interpolate_eq, if_neg hne, if_neg (not_lt.mpr (le_of_lt (lt_of_le_of_lt hh hhi))),
    if_pos hhi]

/-- Below the measured range the interpolator picks one of the three
extrapolation payloads. -/
lemma interpolate_below {M : MathOps} {series : List Pt} {t : ℚ}
    (hne : series ≠ []) (hb : t < (sortByY series).headI.y) :
    interpolateCurrentForLift M series t =
      if 2 ≤ (sortByY series).length then
        if 0 < (sortByY series).headI.y ∧ 0 < (sortByY series).tail.headI.y ∧
            0 < (sortByY series).headI.x ∧ 0 < (sortByY series).tail.headI.x then
          .ok (powerLawOk M (sortByY series).headI (sortByY series).tail.headI t)
        else .ok (linearOk (sortByY series).headI (sortByY series).tail.headI t)
      else .ok (singleOk (sortByY series).headI t) := by
  rw [interpolate_eq, if_neg hne, if_pos hb]

lemma powerLawOk_noteLow (M : MathOps) (a b : Pt) (t : ℚ) :
    (powerLawOk M a b t).noteLow = true := rfl

lemma linearOk_noteLow (a b : Pt) (t : ℚ) : (linearOk a b t).noteLow = true := rfl

lemma singleOk_noteLow (p : Pt) (t : ℚ) : (singleOk p t).noteLow = true := rfl

lemma segFrac_bounds {a b : Pt} {t : ℚ} (h1 : a.y ≤ t) (h2 : t ≤ b.y) :
    0 ≤ segFrac a b t ∧ segFrac a b t ≤ 1 := by
  unfold segFrac
  by_cases hd : b.y - a.y = 0
  · have hba : b.y = a.y := by linarith [sub_eq_zero.mp hd]
    have ht : t = a.y := le_antisymm (hba ▸ h2) h1
    rw [if_pos hd, ht]
    norm_num
  · rw [if_neg hd]
    have hlt : 0 < b.y - a.y := lt_of_le_of_ne (by linarith) (Ne.symm hd)
    exact ⟨div_nonneg (by linarith) (le_of_lt hlt), by rw [div_le_one hlt]; linarith⟩

lemma lerp_nonneg {u v f : ℚ} (hu : 0 ≤ u) (hv : 0 ≤ v) (h0 : 0 ≤ f) (h1 : f ≤ 1) :
    0 ≤ u + f * (v - u) := by nlinarith

/-! ### Facts about `listMin` and the flight-curve pipeline -/

lemma foldl_min_le_init : ∀ (xs : List ℚ) (a : ℚ), xs.foldl min a ≤ a
  | [], a => le_refl a
  | x :: xs, a => le_trans (foldl_min_le_init xs (min a x)) (min_le_left a x)

lemma foldl_min_le_mem : ∀ (xs : List ℚ) (a : ℚ), ∀ x ∈ xs, xs.foldl min a ≤ x
  | [], _, x, hx => by cases hx
  | y :: xs, a, x, hx => by
    rcases List.mem_cons.mp hx with h | h
    · subst h
      exact le_trans (foldl_min_le_init xs (min a x)) (min_le_right a x)
    · exact foldl_min_le_mem xs (min a y) x h

lemma foldl_min_mem : ∀ (xs : List ℚ) (a : ℚ), xs.foldl min a = a ∨ xs.foldl min a ∈ xs
  | [], a => Or.inl rfl
  | x :: xs, a => by
    rcases foldl_min_mem xs (min a x) with h | h
    · rcases min_cases a x with ⟨he, _⟩ | ⟨he, _⟩
      · rw [List.foldl_cons]
        exact Or.inl (h.trans he)
      · rw [List.foldl_cons]
        exact Or.inr (by rw [h, he]; simp)
    · exact Or.inr (List.mem_cons_of_mem x h)

lemma listMin_mem {l : List ℚ} (h : l ≠ []) : listMin l ∈ l := by
  cases l with
  | nil => exact absurd rfl h
  | cons x xs =>
    show xs.foldl min x ∈ x :: xs
    rcases foldl_min_mem xs x with h2 | h2
    · rw [h2]; simp
    · exact List.mem_cons_of_mem x h2

lemma listMin_le {l : List ℚ} {x : ℚ} (hx : x ∈ l) : listMin l ≤ x := by
  cases l with
  | nil => cases hx
  | cons y xs =>
    show xs.foldl min y ≤ x
    rcases List.mem_cons.mp hx with h | h
    · subst h; exact foldl_min_le_init xs x
    · exact foldl_min_le_mem xs y x h

/-- The head of the `y`-sorted series carries exactly the minimum
measured thrust. -/
lemma sortByY_headI_y_eq_listMin {series : List Pt} (hne : series ≠ []) :
    (sortByY series).headI.y = listMin (series.map (·.y)) := by
  apply le_antisymm
  · have hmapne : series.map (·.y) ≠ [] := by
      simpa using hne
    obtain ⟨p, hp, hpy⟩ := List.mem_map.mp (listMin_mem hmapne)
    exact hpy ▸ sortByY_headI_le hp
  · exact listMin_le (List.mem_map.mpr
      ⟨_, (sortByY_perm series).mem_iff.mp (headI_mem (sortByY_ne_nil hne)), rfl⟩)

lemma sortByY_headI_le_getLastI {series : List Pt} (hne : series ≠ []) :
    (sortByY series).headI.y ≤ (sortByY series).getLastI.y :=
  sorted_le_getLastI (sortByY_sorted series) _ (headI_mem (sortByY_ne_nil hne))

lemma flightMinutes_bounds {u : ℚ} (hu : 0 ≤ u) (tc : ℚ) :
    0 ≤ flightMinutes u tc ∧ flightMinutes u tc ≤ 120 := by
  unfold flightMinutes
  split_ifs with h
  · exact ⟨le_min (mul_nonneg (div_nonneg hu h.le) (by norm_num)) (by norm_num),
      min_le_right _ _⟩
  · norm_num

lemma flightPoint_w (mn u mc pm : ℚ) (r : InterpOk) :
    (flightPoint mn u mc pm r).w = pm * mc := rfl

lemma flightPoint_t (mn u mc pm : ℚ) (r : InterpOk) :
    (flightPoint mn u mc pm r).t =
      flightMinutes u (max (orQ r.currentA 0) (1/10) * mc) := rfl

/-- Every point in the boundary-append step is a sweep point or the
boundary point itself. -/
lemma mem_withBoundary {M : MathOps} {series : List Pt} {mc u : ℚ}
    {out : List FPoint} {p : FPoint}
    (hp : p ∈ withBoundary M series mc u out) :
    p ∈ out ∨ ∃ b, interpolateCurrentForLift M series (minPerMotorLiftOf series) = .ok b ∧
      p = { flightPoint (minPerMotorLiftOf series) u mc (minPerMotorLiftOf series) b
              with est := false } := by
  unfold withBoundary at hp
  by_cases hpos : 0 < minPerMotorLiftOf series
  · rw [if_pos hpos] at hp
    cases hint : interpolateCurrentForLift M series (minPerMotorLiftOf series) with
    | ok b =>
      rw [hint] at hp
      dsimp only at hp
      split at hp
      · exact Or.inl hp
      · rcases List.mem_append.mp hp with h | h
        · exact Or.inl h
        · simp only [List.mem_singleton] at h
          exact Or.inr ⟨b, rfl, h⟩
    | err s =>
      rw [hint] at hp
      exact Or.inl hp
  · rw [if_neg hpos] at hp
    exact Or.inl hp

/-- Every sweep point is a `flightPoint` of some successfully
interpolated sample. -/
lemma mem_sweepOut {M : MathOps} {series : List Pt} {mc u : ℚ} {n : ℕ} {p : FPoint}
    (hp : p ∈ sweepOut M series mc u n) :
    ∃ i interp, i ∈ List.range n ∧
      interpolateCurrentForLift M series (sampleLift series n i) = .ok interp ∧
      p = flightPoint (minPerMotorLiftOf series) u mc (sampleLift series n i) interp := by
  unfold sweepOut at hp
  obtain ⟨i, hi, hf⟩ := List.mem_filterMap.mp hp
  cases hint : interpolateCurrentForLift M series (sampleLift series n i) with
  | ok interp =>
    rw [hint] at hf
    simp at hf
    exact ⟨i, interp, hi, hint, hf.symm⟩
  | err s =>
    rw [hint] at hf
    cases hf

lemma getLastI_append_singleton {α : Type} [Inhabited α] (l : List α) (x : α) :
    (l ++ [x]).getLastI = x := by
  rw [List.getLastI_eq_getLast?, List.getLast?_concat]

/-- The partitioner always stitches: whenever both output sequences are
non-empty, the last estimated point and the first measured point have
weights within `1e-6`. -/
lemma splitCurve_stitch (curve : List FPoint)
    (hk : (splitCurve curve).known ≠ []) (he : (splitCurve curve).est ≠ []) :
    |(splitCurve curve).est.getLastI.w - (splitCurve curve).known.headI.w| ≤
      1/1000000 := by
  unfold splitCurve at hk he ⊢
  by_cases hemp : curve.isEmpty
  · rw [if_pos hemp] at hk
    simp at hk
  rw [if_neg hemp] at hk he ⊢
  by_cases hcond : (curve.filter fun d => !d.est).length ≠ 0 ∧
      (curve.filter fun d => d.est).length ≠ 0
  · rw [if_pos hcond] at hk he ⊢
    by_cases hgap : 1/1000000 <
        |(curve.filter fun d => d.est).getLastI.w -
          (curve.filter fun d => !d.est).headI.w|
    · rw [if_pos hgap]
      simp only
      rw [getLastI_append_singleton]
      simp
    · rw [if_neg hgap]
      simp only
      exact le_of_not_lt hgap
  · rw [if_neg hcond] at hk he ⊢
    rcases not_and_or.mp hcond with h | h
    · simp only [ne_eq, not_not, List.length_eq_zero] at h
      exact absurd h hk
    · simp only [ne_eq, not_not, List.length_eq_zero] at h
      exact absurd h he

/-- When the boundary interpolation succeeds, the boundary-append step
guarantees a point whose weight is within `1e-6` of `minY · motorCount`
(either an existing sweep point or the appended boundary). -/
lemma withBoundary_near_boundary {M : MathOps} {series : List Pt} {mc u : ℚ}
    {out : List FPoint} (hpos : 0 < minPerMotorLiftOf series)
    {r : InterpOk}
    (hr : interpolateCurrentForLift M series (minPerMotorLiftOf series) = .ok r) :
    ∃ p ∈ withBoundary M series mc u out,
      |p.w - minPerMotorLiftOf series * mc| < 1/1000000 := by
  unfold withBoundary
  rw [if_pos hpos, hr]
  dsimp only
  split
  · next h =>
      obtain ⟨p, hp, hpw⟩ := List.any_eq_true.mp h
      exact ⟨p, hp, by simpa [flightPoint_w] using of_decide_eq_true hpw⟩
  · next h =>
      refine ⟨_, List.mem_append_right _ (List.mem_singleton_self _), ?_⟩
      show |({ flightPoint (minPerMotorLiftOf series) u mc
        (minPerMotorLiftOf series) r with est := false } : FPoint).w - _| < _
      simp [flightPoint_w]

/-! ### Claim theorems -/

/-- C4: for every non-empty series and every target lift strictly below
every measured thrust (hence below the series' minimum thrust),
`interpolateCurrentForLift` returns `Ok` with `belowMeasuredRange`
(`noteLow`) `= true`, whichever of the three extrapolation fallbacks
applies. -/
theorem below_range_is_ok_and_flagged (M : MathOps) (series : List Pt) (t : ℚ)
    (hne : series ≠ []) (hbelow : ∀ p ∈ series, t < p.y) :
    ∃ r, interpolateCurrentForLift M series t = .ok r ∧ r.noteLow = true := by
  have hb : t < (sortByY series).headI.y :=
    hbelow _ ((sortByY_perm series).mem_iff.mp (headI_mem (sortByY_ne_nil hne)))
  rw [interpolate_below hne hb]
  split_ifs
  · exact ⟨_, rfl, rfl⟩
  · exact ⟨_, rfl, rfl⟩
  · exact ⟨_, rfl, rfl⟩

theorem below_range_is_ok_and_flagged_witness :
    ∃ r, interpolateCurrentForLift opsId [⟨1, 1, none⟩] 0 = .ok r ∧ r.noteLow = true :=
  below_range_is_ok_and_flagged opsId [⟨1, 1, none⟩] 0 (by simp)
    (by intro p hp; simp at hp; subst hp; norm_num)

/-- C7: for every non-empty series, a target strictly above every
measured thrust (hence above the maximum) yields `Err(exceeds-max)`;
in particular for the series `[(x=5,y=1),(x=10,y=2)]` and target `3`. -/
theorem above_range_exceeds_max (M : MathOps) (series : List Pt) (t : ℚ)
    (hne : series ≠ []) (habove : ∀ p ∈ series, p.y < t) :
    interpolateCurrentForLift M series t = .err "exceeds-max" ∧
      interpolateCurrentForLift opsId [⟨5, 1, none⟩, ⟨10, 2, none⟩] 3 =
        .err "exceeds-max" := by
  constructor
  · exact interpolate_exceeds hne
      (habove _ ((sortByY_perm series).mem_iff.mp (getLastI_mem (sortByY_ne_nil hne))))
  · norm_num [interpolate_eq, sortByY, List.insertionSort, List.orderedInsert,
      List.getLastI, findSeg]
    exact fun h => (List.cons_ne_nil _ _ h).elim

theorem above_range_exceeds_max_witness :
    interpolateCurrentForLift opsId [⟨5, 1, none⟩, ⟨10, 2, none⟩] 3 =
      .err "exceeds-max" :=
  (above_range_exceeds_max opsId [⟨5, 1, none⟩, ⟨10, 2, none⟩] 3 (by simp)
    (by intro p hp; simp at hp; rcases hp with h | h <;> (subst h; norm_num))).2

/-- C3 (counterexample): a single-point series defeats the claim.  The
series `[(x=1, y=1)]` is non-empty and the target `1` is neither
strictly below its minimum thrust nor strictly above its maximum
thrust, yet the result is the defensive `Err(segment-not-found)`, not
`Ok`: the bracketing-pair loop never runs on a one-point list. -/
theorem in_range_search_single_point_fails :
    ¬ ((1 : ℚ) < (sortByY [⟨1, 1, none⟩]).headI.y) ∧
    ¬ ((sortByY [⟨1, 1, none⟩]).getLastI.y < (1 : ℚ)) ∧
    interpolateCurrentForLift opsId [⟨1, 1, none⟩] 1 = .err "segment-not-found" := by
  refine ⟨by norm_num [sortByY, List.insertionSort, List.orderedInsert],
    by norm_num [sortByY, List.insertionSort, List.orderedInsert, List.getLastI], ?_⟩
  norm_num [interpolate_eq, sortByY, List.insertionSort, List.orderedInsert,
    List.getLastI, findSeg]

/-- C3 (amended): for every series with at least two points and every
target neither strictly below the smallest thrust nor strictly above
the largest thrust (after sorting by thrust), the bracketing-pair
search succeeds and `interpolateCurrentForLift` returns `Ok`; the
defensive `Err(segment-not-found)` branch is unreachable under these
conditions. -/
theorem in_range_search_succeeds (M : MathOps) (series : List Pt) (t : ℚ)
    (h2 : 2 ≤ series.length)
    (hlo : (sortByY series).headI.y ≤ t) (hhi : t ≤ (sortByY series).getLastI.y) :
    ∃ r, interpolateCurrentForLift M series t = .ok r := by
  have hne : series ≠ [] := by
    intro h; rw [h] at h2; simp at h2
  rw [interpolate_in_range hne hlo hhi]
  exact findSeg_ok_of_bracket (sortByY_sorted series)
    (by rw [(sortByY_perm series).length_eq]; exact h2) hlo hhi

theorem in_range_search_succeeds_witness :
    ∃ r, interpolateCurrentForLift opsId [⟨5, 1, none⟩, ⟨10, 2, none⟩] (3/2) = .ok r :=
  in_range_search_succeeds opsId [⟨5, 1, none⟩, ⟨10, 2, none⟩] (3/2) (by simp)
    (by norm_num [sortByY, List.insertionSort, List.orderedInsert])
    (by norm_num [sortByY, List.insertionSort, List.orderedInsert, List.getLastI])

/-- C1 (counterexample): a series point with a negative measured
current defeats the claim.  For the single-point series
`[(x=-1, y=1)]` and target `1/2`, the single-point fallback returns
`Ok` with `currentA = -1/2 < 0`. -/
theorem ok_result_can_be_negative :
    interpolateCurrentForLift opsId [⟨-1, 1, none⟩] (1/2) =
      .ok { currentA := -(1/2), throttle := 0, noteLow := true } ∧
    (-(1/2) : ℚ) < 0 := by
  constructor
  · norm_num [interpolate_eq, sortByY, List.insertionSort, List.orderedInsert,
      List.getLastI, singleOk]
  · norm_num

/-- C1 (amended): for every series all of whose points have
non-negative current and non-negative (defaulted) throttle, every `Ok`
result of `interpolateCurrentForLift` has `currentA ≥ 0` and
`throttle ≥ 0`, on the in-range linear-interpolation path as well as
all three extrapolation fallbacks. -/
theorem ok_results_nonneg (M : MathOps) (series : List Pt) (t : ℚ)
    (hx : ∀ p ∈ series, 0 ≤ p.x) (hth : ∀ p ∈ series, 0 ≤ p.throttle.getD 0) :
    ∀ r, interpolateCurrentForLift M series t = .ok r →
      0 ≤ r.currentA ∧ 0 ≤ r.throttle := by
  intro r hr
  rw [interpolate_eq] at hr
  by_cases hne : series = []
  · rw [if_pos hne] at hr; cases hr
  rw [if_neg hne] at hr
  by_cases hb : t < (sortByY series).headI.y
  · rw [if_pos hb] at hr
    by_cases h2 : 2 ≤ (sortByY series).length
    · rw [if_pos h2] at hr
      by_cases hpos : 0 < (sortByY series).headI.y ∧ 0 < (sortByY series).tail.headI.y ∧
          0 < (sortByY series).headI.x ∧ 0 < (sortByY series).tail.headI.x
      · rw [if_pos hpos] at hr
        cases hr
        exact ⟨le_max_left 0 _, le_max_left 0 _⟩
      · rw [if_neg hpos] at hr
        cases hr
        exact ⟨le_max_left 0 _, le_max_left 0 _⟩
    · rw [if_neg h2] at hr
      cases hr
      have hmem : (sortByY series).headI ∈ series :=
        (sortByY_perm series).mem_iff.mp (headI_mem (sortByY_ne_nil hne))
      have hs : 0 ≤ max 0 (t / max (sortByY series).headI.y (1/1000000000)) :=
        le_max_left 0 _
      exact ⟨mul_nonneg (hx _ hmem) hs, mul_nonneg (hth _ hmem) hs⟩
  · rw [if_neg hb] at hr
    by_cases hhi : (sortByY series).getLastI.y < t
    · rw [if_pos hhi] at hr; cases hr
    rw [if_neg hhi] at hr
    obtain ⟨l1, a, b, l2, hdecomp, h1, h2, hrform⟩ := findSeg_ok_inv hr
    have hamem : a ∈ series := (sortByY_perm series).mem_iff.mp
      (by rw [hdecomp]; simp)
    have hbmem : b ∈ series := (sortByY_perm series).mem_iff.mp
      (by rw [hdecomp]; simp)
    obtain ⟨hf0, hf1⟩ := segFrac_bounds h1 h2
    subst hrform
    exact ⟨lerp_nonneg (hx a hamem) (hx b hbmem) hf0 hf1,
      lerp_nonneg (hth a hamem) (hth b hbmem) hf0 hf1⟩

theorem ok_results_nonneg_witness :
    0 ≤ (15/2 : ℚ) ∧ 0 ≤ (0 : ℚ) :=
  ok_results_nonneg opsId [⟨5, 1, none⟩, ⟨10, 2, none⟩] (3/2)
    (by intro p hp; simp at hp; rcases hp with h | h <;> (subst h; norm_num))
    (by intro p hp; simp at hp; rcases hp with h | h <;> (subst h; norm_num))
    { currentA := 15/2, throttle := 0, noteLow := false }
    (by norm_num [interpolate_eq, sortByY, List.insertionSort, List.orderedInsert,
        List.getLastI, findSeg, segOk, segFrac]
        exact fun h => (List.cons_ne_nil _ _ h).elim)

/-- C6: whenever `interpolateCurrentForLift` returns an in-range `Ok`
result (`belowMeasuredRange = false`), a consecutive bracketing pair
`(a, b)` of the `y`-sorted series was found around the target, and the
result is exactly the linear interpolation at
`t = (target − a.y) / (b.y − a.y)` (denominator replaced by `1` when
`b.y = a.y`), i.e. the payload `segOk a b target`; in particular
`[(x=5, y=1), (x=10, y=2)]` at target `1.5` gives
`Ok(currentA = 7.5, belowMeasuredRange = false)`. -/
theorem in_range_linear_interpolation :
    (∀ (M : MathOps) (series : List Pt) (t : ℚ) (r : InterpOk),
      interpolateCurrentForLift M series t = .ok r → r.noteLow = false →
      ∃ l1 a b l2, sortByY series = l1 ++ a :: b :: l2 ∧ a.y ≤ t ∧ t ≤ b.y ∧
        r = segOk a b t) ∧
    interpolateCurrentForLift opsId [⟨5, 1, none⟩, ⟨10, 2, none⟩] (3/2) =
      .ok { currentA := 15/2, throttle := 0, noteLow := false } := by
  constructor
  · intro M series t r hr hnl
    rw [interpolate_eq] at hr
    by_cases hne : series = []
    · rw [if_pos hne] at hr; cases hr
    rw [if_neg hne] at hr
    by_cases hb : t < (sortByY series).headI.y
    · rw [if_pos hb] at hr
      exfalso
      split_ifs at hr <;>
        (cases hr; simp [powerLawOk, linearOk, singleOk] at hnl)
    rw [if_neg hb] at hr
    by_cases hhi : (sortByY series).getLastI.y < t
    · rw [if_pos hhi] at hr; cases hr
    rw [if_neg hhi] at hr
    exact findSeg_ok_inv hr
  · norm_num [interpolate_eq, sortByY, List.insertionSort, List.orderedInsert,
      List.getLastI, findSeg, segOk, segFrac]
    exact fun h => (List.cons_ne_nil _ _ h).elim

theorem in_range_linear_interpolation_witness :
    ∃ l1 a b l2, sortByY [⟨5, 1, none⟩, ⟨10, 2, none⟩] = l1 ++ a :: b :: l2 ∧
      a.y ≤ (3/2 : ℚ) ∧ (3/2 : ℚ) ≤ b.y ∧
      ({ currentA := 15/2, throttle := 0, noteLow := false } : InterpOk) =
        segOk a b (3/2) :=
  in_range_linear_interpolation.1 opsId [⟨5, 1, none⟩, ⟨10, 2, none⟩] (3/2)
    { currentA := 15/2, throttle := 0, noteLow := false }
    in_range_linear_interpolation.2 rfl

/-- C5: on the series `[(x=2, y=0.5, throttle=20), (x=4, y=1, throttle=30)]`
with target `0.25`, the power-law extrapolation path is taken and (for
any `Math` operations satisfying `log 2 ≠ 0` and `pow x 1 = x` at the
two evaluation points, as the real ones do) the result is `Ok` with
`belowMeasuredRange = true` and `currentA = 1 < 2`, strictly below the
lowest measured current. -/
theorem power_law_extrapolation_example (M : MathOps) (hlog : M.log 2 ≠ 0)
    (hph : M.pow (1/2) 1 = 1/2) (hpq : M.pow (1/4) 1 = 1/4) :
    ∃ r, interpolateCurrentForLift M [⟨2, 1/2, some 20⟩, ⟨4, 1, some 30⟩] (1/4) =
        .ok r ∧ r.noteLow = true ∧ r.currentA = 1 ∧ r.currentA < 2 := by
  have h1 : M.log 2 / M.log 2 = 1 := div_self hlog
  refine ⟨powerLawOk M ⟨2, 1/2, some 20⟩ ⟨4, 1, some 30⟩ (1/4), ?_, rfl, ?_, ?_⟩
  · norm_num [interpolate_eq, sortByY, List.insertionSort, List.orderedInsert,
      List.getLastI]
    exact fun h => (List.cons_ne_nil _ _ h).elim
  · norm_num [powerLawOk, h1, hph, hpq, optOr, orQ]
  · norm_num [powerLawOk, h1, hph, hpq, optOr, orQ]

theorem power_law_extrapolation_example_witness :
    ∃ r, interpolateCurrentForLift opsId [⟨2, 1/2, some 20⟩, ⟨4, 1, some 30⟩] (1/4) =
        .ok r ∧ r.noteLow = true ∧ r.currentA = 1 ∧ r.currentA < 2 :=
  power_law_extrapolation_example opsId (by norm_num [opsId])
    (by norm_num [opsId]) (by norm_num [opsId])

/-- C8: `buildSeries` of a `null` input is the empty sequence, and for
every row list it returns exactly the rows whose `current` and
`thrust_kg` are present (finite), mapped to `(x, y, throttle)` points —
as a permutation — and sorted non-decreasing in `x`; since this holds
for all inputs, the output is non-decreasing in `x` for any permutation
of the same rows. -/
theorem buildSeries_filters_maps_sorts :
    buildSeries none = [] ∧
    ∀ rows : List Row,
      ((buildSeries (some rows)).Sorted fun a b => a.x ≤ b.x) ∧
      List.Perm (buildSeries (some rows))
        (rows.filterMap fun p =>
          match p.current, p.thrust_kg with
          | some c, some t => some { x := c, y := t, throttle := p.throttle }
          | _, _ => none) :=
  ⟨rfl, fun _ => ⟨sortByX_sorted _, sortByX_perm _⟩⟩

/-- C10 (counterexample): the power-law branch can be reached with the
two lowest thrust values equal.  The series `[(1,1), (2,1)]` with
target `1/2` satisfies every guard of the power-law branch, yet the
two lowest thrusts are both `1`, so the exponent's denominator
`ln(b.y/a.y) = ln 1 = 0` and the computation divides by zero. -/
theorem power_law_branch_can_have_equal_thrusts :
    powerLawBranch [⟨1, 1, none⟩, ⟨2, 1, none⟩] (1/2) = true ∧
    (sortByY [⟨1, 1, none⟩, ⟨2, 1, none⟩]).headI.y =
      (sortByY [⟨1, 1, none⟩, ⟨2, 1, none⟩]).tail.headI.y ∧
    (sortByY [⟨1, 1, none⟩, ⟨2, 1, none⟩]).tail.headI.y /
      (sortByY [⟨1, 1, none⟩, ⟨2, 1, none⟩]).headI.y = 1 := by
  norm_num [powerLawBranch, sortByY, List.insertionSort, List.orderedInsert]

/-- C10 (amended): under the power-law preconditions strengthened with
distinctness of the two lowest thrust values, the log argument
`b.y/a.y` differs from `1` (so the real `ln(b.y/a.y)` is non-zero and
the exponent computation does not divide by zero), and the result is
`Ok` with the (finite, rational) power-law payload. -/
theorem power_law_distinct_thrusts_safe (M : MathOps) (series : List Pt) (t : ℚ)
    (hbr : powerLawBranch series t = true)
    (hdist : (sortByY series).headI.y ≠ (sortByY series).tail.headI.y) :
    (sortByY series).tail.headI.y / (sortByY series).headI.y ≠ 1 ∧
    interpolateCurrentForLift M series t =
      .ok (powerLawOk M (sortByY series).headI (sortByY series).tail.headI t) := by
  unfold powerLawBranch at hbr
  simp only [Bool.and_eq_true, Bool.not_eq_true', List.isEmpty_eq_false,
    decide_eq_true_eq] at hbr
  obtain ⟨⟨⟨hne, hb⟩, h2⟩, ⟨⟨hay, hby⟩, hax⟩, hbx⟩ := hbr
  constructor
  · intro hc
    exact hdist ((div_eq_one_iff_eq (ne_of_gt hay)).mp hc).symm
  · rw [interpolate_eq, if_neg hne, if_pos hb, if_pos h2,
      if_pos ⟨hay, hby, hax, hbx⟩]

theorem power_law_distinct_thrusts_safe_witness :
    (sortByY [⟨1, 1, none⟩, ⟨2, 2, none⟩]).tail.headI.y /
      (sortByY [⟨1, 1, none⟩, ⟨2, 2, none⟩]).headI.y ≠ 1 ∧
    interpolateCurrentForLift opsId [⟨1, 1, none⟩, ⟨2, 2, none⟩] (1/2) =
      .ok (powerLawOk opsId (sortByY [⟨1, 1, none⟩, ⟨2, 2, none⟩]).headI
        (sortByY [⟨1, 1, none⟩, ⟨2, 2, none⟩]).tail.headI (1/2)) :=
  power_law_distinct_thrusts_safe opsId [⟨1, 1, none⟩, ⟨2, 2, none⟩] (1/2)
    (by norm_num [powerLawBranch, sortByY, List.insertionSort, List.orderedInsert])
    (by norm_num [sortByY, List.insertionSort, List.orderedInsert])

/-- C9: under the interface preconditions (`motorCount > 0`,
`capacityAh ≥ 0`, `usablePercent ∈ [0,100]`), every point emitted by
`buildFlightCurve` has minutes in `[0, 120]`: minutes is
`usableAh / totalCurrent × 60` capped at `120` when the total current
is positive and `0` otherwise. -/
theorem flight_minutes_in_range (M : MathOps) (series : List Pt)
    (motorCount capacityAh usablePct : ℚ) (points : ℕ)
    (_hmc : 0 < motorCount) (hcap : 0 ≤ capacityAh)
    (h0 : 0 ≤ usablePct) (_h100 : usablePct ≤ 100) :
    ∀ p ∈ buildFlightCurve M series motorCount capacityAh usablePct points,
      0 ≤ p.t ∧ p.t ≤ 120 := by
  intro p hp
  have hu : 0 ≤ capacityAh * (usablePct / 100) :=
    mul_nonneg hcap (div_nonneg h0 (by norm_num))
  unfold buildFlightCurve at hp
  split at hp
  · cases hp
  · have hp2 := (sortByW_perm _).mem_iff.mp hp
    rcases mem_withBoundary hp2 with h | ⟨b, _, hb⟩
    · obtain ⟨i, interp, _, _, hpe⟩ := mem_sweepOut h
      rw [hpe, flightPoint_t]
      exact flightMinutes_bounds hu _
    · rw [hb]
      dsimp only
      rw [flightPoint_t]
      exact flightMinutes_bounds hu _

theorem flight_minutes_in_range_witness :
    0 ≤ ({ w := 14/5, t := 120, est := true } : FPoint).t ∧
      ({ w := 14/5, t := 120, est := true } : FPoint).t ≤ 120 :=
  flight_minutes_in_range opsId [⟨1, 1, none⟩] 4 20 80 2
    (by norm_num) (by norm_num) (by norm_num) (by norm_num)
    { w := 14/5, t := 120, est := true }
    (by norm_num [buildFlightCurve, withBoundary, sweepOut, sampleLift, startPerOf,
      endPerOf, minPerMotorLiftOf, maxPerMotorLiftOf, listMin, listMax, flightPoint,
      flightMinutes, orQ, sortByW, interpolateCurrentForLift, sortByY,
      List.insertionSort, List.orderedInsert, List.getLastI, singleOk, findSeg,
      List.range, List.range.loop, List.filterMap, List.insertionSort])

/-- C2 (amended): for every series with at least two points whose
minimum measured thrust `minY` is strictly positive, and
`motorCount ≥ 1`, the output of `buildFlightCurve` contains at least
one point whose per-unit lift (weight divided by motor count) equals
`minY` within `1e-6`, and applying `splitCurve` to that output yields
measured and estimated sequences such that, when both are non-empty,
the last estimated point and the first measured point have weights
within `1e-6`. -/
theorem flight_curve_boundary_and_stitch (M : MathOps) (series : List Pt)
    (motorCount capacityAh usablePct : ℚ) (points : ℕ)
    (h2 : 2 ≤ series.length) (hminY : 0 < listMin (series.map (·.y)))
    (hmc : 1 ≤ motorCount) :
    (∃ p ∈ buildFlightCurve M series motorCount capacityAh usablePct points,
      |p.w / motorCount - listMin (series.map (·.y))| ≤ 1/1000000) ∧
    ((splitCurve (buildFlightCurve M series motorCount capacityAh usablePct
        points)).known ≠ [] →
     (splitCurve (buildFlightCurve M series motorCount capacityAh usablePct
        points)).est ≠ [] →
     |(splitCurve (buildFlightCurve M series motorCount capacityAh usablePct
        points)).est.getLastI.w -
       (splitCurve (buildFlightCurve M series motorCount capacityAh usablePct
        points)).known.headI.w| ≤ 1/1000000) := by
  refine ⟨?_, splitCurve_stitch _⟩
  have hne : series ≠ [] := by
    intro h; rw [h] at h2; simp at h2
  have hmap : series.map (·.y) ≠ [] := by simpa using hne
  have hmin_eq : minPerMotorLiftOf series = listMin (series.map (·.y)) := by
    unfold minPerMotorLiftOf
    rw [if_neg (by simpa [List.isEmpty_iff] using hmap)]
  have hheady : (sortByY series).headI.y = listMin (series.map (·.y)) :=
    sortByY_headI_y_eq_listMin hne
  have hlo : (sortByY series).headI.y ≤ minPerMotorLiftOf series :=
    le_of_eq (hheady.trans hmin_eq.symm)
  have hhi : minPerMotorLiftOf series ≤ (sortByY series).getLastI.y := by
    rw [hmin_eq, ← hheady]
    exact sortByY_headI_le_getLastI hne
  obtain ⟨r, hr⟩ : ∃ r,
      interpolateCurrentForLift M series (minPerMotorLiftOf series) = .ok r := by
    rw [interpolate_in_range hne hlo hhi]
    exact findSeg_ok_of_bracket (sortByY_sorted series)
      (by rw [(sortByY_perm series).length_eq]; exact h2) hlo hhi
  have hpos : 0 < minPerMotorLiftOf series := hmin_eq ▸ hminY
  obtain ⟨p, hp, hpw⟩ := @withBoundary_near_boundary M series motorCount
    (capacityAh * (usablePct / 100))
    (sweepOut M series motorCount (capacityAh * (usablePct / 100)) points)
    hpos r hr
  refine ⟨p, ?_, ?_⟩
  · unfold buildFlightCurve
    rw [if_neg (by simpa [List.isEmpty_iff] using hne)]
    exact (sortByW_perm _).mem_iff.mpr hp
  · have hmc0 : (0 : ℚ) < motorCount := lt_of_lt_of_le one_pos hmc
    have heq : p.w / motorCount - listMin (series.map (·.y)) =
        (p.w - minPerMotorLiftOf series * motorCount) / motorCount := by
      rw [hmin_eq.symm]
      field_simp
      ring
    rw [heq, abs_div, abs_of_pos hmc0]
    calc |p.w - minPerMotorLiftOf series * motorCount| / motorCount ≤
        |p.w - minPerMotorLiftOf series * motorCount| :=
          div_le_self (abs_nonneg _) hmc
      _ ≤ 1/1000000 := le_of_lt hpw

theorem flight_curve_boundary_and_stitch_witness :
    (∃ p ∈ buildFlightCurve opsId [⟨5, 1, none⟩, ⟨10, 2, none⟩] 4 20 80 2,
      |p.w / 4 - listMin (([⟨5, 1, none⟩, ⟨10, 2, none⟩] : List Pt).map (·.y))| ≤
        1/1000000) ∧
    ((splitCurve (buildFlightCurve opsId [⟨5, 1, none⟩, ⟨10, 2, none⟩] 4 20 80
        2)).known ≠ [] →
     (splitCurve (buildFlightCurve opsId [⟨5, 1, none⟩, ⟨10, 2, none⟩] 4 20 80
        2)).est ≠ [] →
     |(splitCurve (buildFlightCurve opsId [⟨5, 1, none⟩, ⟨10, 2, none⟩] 4 20 80
        2)).est.getLastI.w -
       (splitCurve (buildFlightCurve opsId [⟨5, 1, none⟩, ⟨10, 2, none⟩] 4 20 80
        2)).known.headI.w| ≤ 1/1000000) :=
  by
  exact flight_curve_boundary_and_stitch opsId [⟨5, 1, none⟩, ⟨10, 2, none⟩] 4 20 80 2
    (by norm_num) (by norm_num [listMin, List.foldl, min_def]) (by norm_num)

set_option maxHeartbeats 2000000 in
/-- C2 (counterexample): for the single-point series `[(x=1, y=1)]`
(non-empty, `minY = 1 > 0`), `buildFlightCurve` with `motorCount = 4`
and two samples emits no point at all whose per-unit lift is within
`1e-6` of `minY`: the boundary interpolation at `minY` hits the
defensive `segment-not-found` error on a one-point series, so the
boundary point is never appended, and no sweep sample comes close. -/
theorem flight_curve_boundary_missing_single_point :
    (0 : ℚ) < listMin ([(⟨1, 1, none⟩ : Pt)].map (·.y)) ∧
    ((buildFlightCurve opsId [⟨1, 1, none⟩] 4 20 80 2).filter fun p =>
      |p.w / 4 - listMin ([(⟨1, 1, none⟩ : Pt)].map (·.y))| ≤ 1/1000000).length = 0 := by
  constructor
  · norm_num [listMin]
  · norm_num [buildFlightCurve, withBoundary, sweepOut, sampleLift, startPerOf,
      endPerOf, minPerMotorLiftOf, maxPerMotorLiftOf, listMin, listMax, flightPoint,
      flightMinutes, orQ, sortByW, interpolateCurrentForLift, sortByY,
      List.insertionSort, List.orderedInsert, List.getLastI, singleOk, findSeg,
      List.range, List.range.loop, List.filterMap, List.filter, abs]

end MotorCheck
